import Mathlib

/-!
Verification of the scheduler/dispatcher core of AI_Task_Scheduler
(`celery_worker/app/tasks/scheduler.py`, `dispatch_periodic_tasks`), over a
shallow embedding of the Python source.

Modelling conventions:
* instants are seconds since the epoch, as `Int`; UTC unless said otherwise;
* a pytz time zone is its fixed UTC offset in seconds (`pytz.timezone` on an
  unknown zone name raises, modelled by `Raw.invalid`);
* croniter is an external library, abstracted by the one function the source
  calls on it (see `CronExpr`);
* a raised Python exception is `Except.error ()`.
-/

namespace AITaskScheduler

/-- Interval period unit.  The parsing front end restricts `period` to these
four values (`IntervalSchedule.period` in `task_parser/app/schemas.py`), and
`timedelta(**{period: every})` scales `every` by the unit length in seconds. -/
inductive Period where
  | seconds
  | minutes
  | hours
  | days
deriving DecidableEq

/-- Seconds in one unit of the period, as used by `timedelta`. -/
def Period.toSeconds : Period → Int
  | .seconds => 1
  | .minutes => 60
  | .hours => 3600
  | .days => 86400

/-- A stored JSON value the scheduler must interpret.  `invalid` models a
present but uninterpretable value, whose interpretation raises in the source:
`croniter(cron_str, ...)` on a bad cron string, `datetime.fromisoformat` on a
bad ISO string, `pytz.timezone` on an unknown zone name. -/
inductive Raw (α : Type) where
  | invalid
  | valid (a : α)

/-- A parsed cron expression.  croniter is an external library, not code of
this repository, so it is abstracted by the one function the scheduler uses:
`prevFire b` stands for `croniter(expr, b).get_prev(datetime)`, the most
recent scheduled occurrence at or before the local wall-clock instant `b`
(spec section 4.1 calls it the previous fire time). -/
structure CronExpr where
  prevFire : Int → Int

/-- The `schedule_details` JSON document, keyed by its `type` field.  `other`
covers a missing `type` field or one that is none of cron, interval and
datetime.  `none` in an `Option` field models an entry that is missing or
falsy (empty string, zero), which the source's `.get(...)` reads as absent
and its truthiness checks treat alike. -/
inductive ScheduleDetails where
  | cron (value : Option (Raw CronExpr))
  | interval (every : Option Int) (period : Option Period)
  | datetime (value : Option (Raw Int))
  | other

/-- A workflow step document: the source reads `step.get('tool_name')` and
`step.get('parameters', {})`, so both keys may be absent.  Parameters are an
association list of name and value. -/
structure Step where
  tool_name : Option String
  parameters : Option (List (String × String))
deriving DecidableEq

/-- A Task row (`task_parser/app/sql_models.py`).  `timezone` is the result of
looking the IANA zone name up with `pytz.timezone`: the zone's UTC offset in
seconds when the name is known, `Raw.invalid` when the lookup raises.  A naive
datetime value is the count of seconds a wall clock in that zone shows since
the epoch, so localizing it subtracts the offset. -/
structure Task where
  id : Nat
  task_name : String
  workflow : List Step
  schedule_details : ScheduleDetails
  timezone : Raw Int
  is_active : Bool
  last_run_at : Option Int

/-- One iteration of the Phase 1 for-loop of `dispatch_periodic_tasks`
(scheduler.py lines 31-67) on a single active row: the due flag and the
(possibly mutated, not yet committed) row, or `Except.error` when the loop
body raises.  A `continue` on missing data is `ok (false, task)`. -/
def evalTask (now_utc : Int) (task : Task) : Except Unit (Bool × Task) :=
  match task.schedule_details with
  | .cron value =>
    match value with
    | none => .ok (false, task)
    | some v =>
      match task.timezone with
      | .invalid => .error ()
      | .valid off =>
        match v with
        | .invalid => .error ()
        | .valid e =>
          let base_time := now_utc + off
          let prev_run_time := e.prevFire base_time
          .ok (decide (base_time - prev_run_time ≤ 60), task)
  | .interval every period =>
    match every, period with
    | some e, some p =>
      if e = 0 then .ok (false, task)
      else
        match task.last_run_at with
        | some l =>
          if l + e * p.toSeconds ≤ now_utc then
            .ok (true, { task with last_run_at := some now_utc })
          else
            .ok (false, task)
        | none => .ok (true, { task with last_run_at := some now_utc })
    | _, _ => .ok (false, task)
  | .datetime value =>
    match value with
    | none => .ok (false, task)
    | some .invalid => .error ()
    | some (.valid naive) =>
      match task.timezone with
      | .invalid => .error ()
      | .valid off =>
        if naive - off ≤ now_utc then
          .ok (true, { task with is_active := false })
        else
          .ok (false, task)
  | .other => .ok (false, task)

/-- The clean dispatch payload appended for a due task (lines 72-75). -/
structure Payload where
  id : Nat
  workflow : List Step
deriving DecidableEq

/-- Outcome of the Phase 1 try-block: `ok` carries the evaluated rows and the
accumulated `dispatch_payloads`; `err` models an exception escaping the loop.
`dispatch_payloads` is declared outside the try-block in the source, so the
payloads appended before the exception survive it: `err` keeps them. -/
inductive Phase1Out where
  | ok (tasks : List Task) (payloads : List Payload)
  | err (payloads : List Payload)

/-- The Phase 1 loop (lines 28-75): rows with `is_active = False` are excluded
by the query and pass through untouched; each active row is evaluated in
order, and a due row appends a payload of its id and workflow. -/
def phase1Loop (now_utc : Int) : List Task → Phase1Out
  | [] => .ok [] []
  | t :: ts =>
    if t.is_active then
      match evalTask now_utc t with
      | .error _ => .err []
      | .ok (due, t') =>
        match phase1Loop now_utc ts with
        | .ok ts' ps =>
          .ok (t' :: ts')
            (if due then { id := t.id, workflow := t.workflow } :: ps else ps)
        | .err ps =>
          .err (if due then { id := t.id, workflow := t.workflow } :: ps else ps)
    else
      match phase1Loop now_utc ts with
      | .ok ts' ps => .ok (t :: ts') ps
      | .err ps => .err ps

/-- Phase 1 with its commit/rollback epilogue (lines 77-89): on success the
mutations are committed (the source commits only when `dispatch_payloads` is
nonempty; no row is mutated unless it is due, so nothing is lost otherwise);
on an exception the transaction is rolled back and the database keeps its
prior rows, while the surviving `dispatch_payloads` are returned as well. -/
def phase1 (now_utc : Int) (db : List Task) : List Task × List Payload :=
  match phase1Loop now_utc db with
  | .ok db' ps => (if ps.isEmpty then db else db', ps)
  | .err ps => (db, ps)

/-- What `celery_app.signature(step.get('tool_name'),
kwargs=step.get('parameters', {}))` captures of one step (lines 99-102). -/
def stepSig (s : Step) : Option String × List (String × String) :=
  (s.tool_name, s.parameters.getD [])

/-- The ordered chain of signatures built for one payload (lines 97-103). -/
def buildChain (w : List Step) : List (Option String × List (String × String)) :=
  w.map stepSig

/-- Phase 2 (lines 93-110): for each payload build its chain and, when the
chain is nonempty, call `apply_async` on it.  `pubFails` models the external
broker raising for a given task id; the per-payload try/except reports the
failure and moves on.  The result is the list of chains actually handed to
`apply_async`, in order; note the published message is the chain alone. -/
def phase2 (pubFails : Nat → Bool) (ps : List Payload) :
    List (List (Option String × List (String × String))) :=
  ps.filterMap fun p =>
    let sigs := buildChain p.workflow
    if sigs.isEmpty then none
    else if pubFails p.id then none
    else some sigs

/-- The whole beat-cycle body `dispatch_periodic_tasks` (lines 11-113):
Phase 1, then Phase 2 on the surviving payloads.  Returns the database rows
after the cycle and the chains published to the queue. -/
def dispatch_periodic_tasks (pubFails : Nat → Bool) (now_utc : Int)
    (db : List Task) :
    List Task × List (List (Option String × List (String × String))) :=
  let r := phase1 now_utc db
  (r.1, phase2 pubFails r.2)

/-- The `dispatch_payloads` component of a Phase 1 outcome, whichever way the
try-block ended. -/
def Phase1Out.payloads : Phase1Out → List Payload
  | .ok _ ps => ps
  | .err ps => ps

/-- Schedule documents with a required entry missing or falsy — exactly the
cases the source skips with `continue` (`if not cron_str`, `if not
all([every, period])`, `if not scheduled_time_str`). -/
def missingRequired : ScheduleDetails → Bool
  | .cron none => true
  | .interval none _ => true
  | .interval (some _) none => true
  | .interval (some e) (some _) => e == 0
  | .datetime none => true
  | _ => false

/-- A scrape step, as the parsing front end writes it. -/
def stepScrape : Step :=
  ⟨some "scrape_web", some [("url", "https://example.com"), ("selector", "h2")]⟩

/-- An email step. -/
def stepEmail : Step :=
  ⟨some "send_email", some [("recipient", "a@example.com"), ("subject", "news")]⟩

/-- A never-run five-minute interval task. -/
def tInterval : Task :=
  { id := 1, task_name := "interval task", workflow := [stepScrape, stepEmail],
    schedule_details := .interval (some 5) (some .minutes),
    timezone := .valid 0, is_active := true, last_run_at := none }

/-- An every-minute cron expression: occurrences at every multiple of 60. -/
def cronMinute : CronExpr := ⟨fun b => b - b % 60⟩

/-- An every-minute cron task in zone UTC. -/
def tCron : Task :=
  { id := 2, task_name := "cron task", workflow := [stepScrape],
    schedule_details := .cron (some (.valid cronMinute)),
    timezone := .valid 0, is_active := true, last_run_at := none }

/-- A task whose cron string does not parse: croniter raises on it. -/
def tCronBad : Task :=
  { id := 3, task_name := "bad cron", workflow := [stepEmail],
    schedule_details := .cron (some .invalid),
    timezone := .valid 0, is_active := true, last_run_at := none }

/-- A one-shot datetime task, scheduled (naive instant 50, zone offset 0). -/
def tDate : Task :=
  { id := 4, task_name := "one shot", workflow := [stepEmail],
    schedule_details := .datetime (some (.valid 50)),
    timezone := .valid 0, is_active := true, last_run_at := none }

/-- A task whose schedule type is none of cron, interval and datetime. -/
def tOther : Task :=
  { id := 5, task_name := "unknown type", workflow := [stepEmail],
    schedule_details := .other,
    timezone := .valid 0, is_active := true, last_run_at := none }

/-- A second never-run interval task: same workflow as `tInterval`, other id. -/
def tInterval2 : Task :=
  { tInterval with id := 6, task_name := "interval clone" }

/-- An interval task whose period entry is missing. -/
def tNoPeriod : Task :=
  { id := 7, task_name := "no period", workflow := [stepEmail],
    schedule_details := .interval (some 3) none,
    timezone := .valid 0, is_active := true, last_run_at := none }

/-! ## Helper lemmas -/

theorem Period.toSeconds_pos (p : Period) : 0 < p.toSeconds := by
  cases p <;> decide

/-- A not-due evaluation returns the row unchanged. -/
theorem evalTask_not_due_fix (now_utc : Int) (t t' : Task)
    (h : evalTask now_utc t = .ok (false, t')) : t' = t := by
  unfold evalTask at h
  repeat' split at h
  all_goals try dsimp only at h
  all_goals
    first
    | exact (congrArg Prod.snd (Except.ok.inj h)).symm
    | exact absurd (congrArg Prod.fst (Except.ok.inj h)) (by simp)
    | simp at h

/-- A skipped or not-due head row passes through the loop unchanged and the
rest of the list is processed exactly as it would be alone. -/
theorem phase1Loop_skip (now_utc : Int) (t : Task) (ts : List Task)
    (h : evalTask now_utc t = .ok (false, t)) :
    phase1Loop now_utc (t :: ts) =
      match phase1Loop now_utc ts with
      | .ok ts' ps => .ok (t :: ts') ps
      | .err ps => .err ps := by
  by_cases ha : t.is_active <;>
    cases hr : phase1Loop now_utc ts <;>
      simp [phase1Loop, ha, h, hr]

/-- The payload component of `phase1` is the loop's payload list. -/
theorem phase1_snd (now_utc : Int) (db : List Task) :
    (phase1 now_utc db).2 = (phase1Loop now_utc db).payloads := by
  unfold phase1
  cases phase1Loop now_utc db <;> simp [Phase1Out.payloads]

/-- Every payload the loop ever accumulates carries the id and the stored
workflow of some row of the input list. -/
theorem phase1Loop_payload_src (now_utc : Int) :
    ∀ l : List Task, ∀ p ∈ (phase1Loop now_utc l).payloads,
      ∃ t ∈ l, p.id = t.id ∧ p.workflow = t.workflow := by
  intro l
  induction l with
  | nil => simp [phase1Loop, Phase1Out.payloads]
  | cons t ts ih =>
    intro p hp
    by_cases ha : t.is_active
    · cases hev : evalTask now_utc t with
      | error e =>
        have heq : (phase1Loop now_utc (t :: ts)).payloads = [] := by
          simp [phase1Loop, ha, hev, Phase1Out.payloads]
        rw [heq] at hp
        simp at hp
      | ok r =>
        obtain ⟨due, t'⟩ := r
        have heq : (phase1Loop now_utc (t :: ts)).payloads =
            (if due then { id := t.id, workflow := t.workflow } :: (phase1Loop now_utc ts).payloads
             else (phase1Loop now_utc ts).payloads) := by
          cases hr : phase1Loop now_utc ts <;>
            simp [phase1Loop, ha, hev, hr, Phase1Out.payloads]
        rw [heq] at hp
        cases due with
        | false =>
          simp only [Bool.false_eq_true, if_false] at hp
          obtain ⟨u, hu, h1, h2⟩ := ih p hp
          exact ⟨u, List.mem_cons_of_mem _ hu, h1, h2⟩
        | true =>
          simp only [if_true, List.mem_cons] at hp
          rcases hp with hp | hp
          · exact ⟨t, List.mem_cons_self _ _, by simp [hp]⟩
          · obtain ⟨u, hu, h1, h2⟩ := ih p hp
            exact ⟨u, List.mem_cons_of_mem _ hu, h1, h2⟩
    · have heq : (phase1Loop now_utc (t :: ts)).payloads =
          (phase1Loop now_utc ts).payloads := by
        cases hr : phase1Loop now_utc ts <;>
          simp [phase1Loop, ha, hr, Phase1Out.payloads]
      rw [heq] at hp
      obtain ⟨u, hu, h1, h2⟩ := ih p hp
      exact ⟨u, List.mem_cons_of_mem _ hu, h1, h2⟩

/-- The payload list of a loop run, one row at a time: an inactive row and a
row whose evaluation errors contribute nothing, a due row contributes its
payload, and the tail's contribution does not depend on whether the tail run
later errors. -/
theorem phase1Loop_payloads_cons (now_utc : Int) (t : Task) (l : List Task) :
    (phase1Loop now_utc (t :: l)).payloads =
      if t.is_active then
        match evalTask now_utc t with
        | .error _ => []
        | .ok (due, _) =>
          (if due then [{ id := t.id, workflow := t.workflow }] else []) ++
            (phase1Loop now_utc l).payloads
      else (phase1Loop now_utc l).payloads := by
  by_cases ha : t.is_active
  · cases hev : evalTask now_utc t with
    | error e => simp [phase1Loop, ha, hev, Phase1Out.payloads]
    | ok r =>
      obtain ⟨due, t'⟩ := r
      cases hr : phase1Loop now_utc l <;>
        cases due <;>
          simp [phase1Loop, ha, hev, hr, Phase1Out.payloads]
  · cases hr : phase1Loop now_utc l <;>
      simp [phase1Loop, ha, hr, Phase1Out.payloads]

/-- An inactive row, wherever it sits, leaves a cycle's payload list exactly
as it would be without the row. -/
theorem phase1Loop_inactive_insert (now_utc : Int) (u : Task)
    (hu : u.is_active = false) :
    ∀ l1 l2 : List Task,
      (phase1Loop now_utc (l1 ++ u :: l2)).payloads =
        (phase1Loop now_utc (l1 ++ l2)).payloads := by
  intro l1
  induction l1 with
  | nil =>
    intro l2
    simp [phase1Loop_payloads_cons, hu]
  | cons t l1 ih =>
    intro l2
    simp only [List.cons_append, phase1Loop_payloads_cons, ih]

/-- When the broker never fails, Phase 2 publishes, in order, the chain of
every payload with a nonempty workflow. -/
theorem phase2_noFail (ps : List Payload) :
    phase2 (fun _ => false) ps =
      (ps.map fun p => buildChain p.workflow).filter fun c => !c.isEmpty := by
  induction ps with
  | nil => rfl
  | cons p ps ih =>
    have hstep : phase2 (fun _ => false) (p :: ps)
        = (if buildChain p.workflow = [] then phase2 (fun _ => false) ps
           else buildChain p.workflow :: phase2 (fun _ => false) ps) := by
      by_cases h : buildChain p.workflow = [] <;>
        simp [phase2, List.filterMap_cons, h]
    rw [hstep, ih]
    by_cases h : buildChain p.workflow = [] <;>
      simp [List.filter_cons, h]

/-- Injectivity of a successful evaluation result. -/
theorem ok_inj {due due' : Bool} {t t' : Task}
    (h : (Except.ok (due, t) : Except Unit (Bool × Task)) = .ok (due', t')) :
    due = due' ∧ t = t' := by
  injection h with h1
  injection h1 with h2 h3
  exact ⟨h2, h3⟩

/-- Injectivity of a successful loop outcome. -/
theorem p1ok_inj {a b : List Task} {ps qs : List Payload}
    (h : (Phase1Out.ok a ps) = .ok b qs) : a = b ∧ ps = qs := by
  injection h with h1 h2
  exact ⟨h1, h2⟩

/-- Re-evaluating, at the same instant, the row a successful evaluation
produced: either the row is now inactive, or evaluating it again succeeds,
changes nothing, and can only find a cron schedule due — provided the row's
interval length, if any, is nonnegative. -/
theorem evalTask_twice (now_utc : Int) (t : Task) (due : Bool) (t' : Task)
    (hpos : ∀ e p, t.schedule_details = .interval (some e) p → 0 ≤ e)
    (h : evalTask now_utc t = .ok (due, t')) :
    t'.is_active = false ∨
    ∃ due2, evalTask now_utc t' = .ok (due2, t') ∧
      (due2 = true → ∃ v, t'.schedule_details = .cron v) := by
  cases hs : t.schedule_details with
  | cron value =>
    cases value with
    | none =>
      have hev : evalTask now_utc t = .ok (false, t) := by simp [evalTask, hs]
      obtain ⟨hdue, ht⟩ := ok_inj (hev.symm.trans h)
      subst ht
      exact Or.inr ⟨false, hev, by simp⟩
    | some v =>
      cases htz : t.timezone with
      | invalid =>
        have hev : evalTask now_utc t = .error () := by
          cases v <;> simp [evalTask, hs, htz]
        exact Except.noConfusion (hev.symm.trans h)
      | valid off =>
        cases v with
        | invalid =>
          have hev : evalTask now_utc t = .error () := by simp [evalTask, hs, htz]
          exact Except.noConfusion (hev.symm.trans h)
        | valid e =>
          have hev : evalTask now_utc t =
              .ok (decide (now_utc + off - e.prevFire (now_utc + off) ≤ 60), t) := by
            simp [evalTask, hs, htz]
          obtain ⟨hdue, ht⟩ := ok_inj (hev.symm.trans h)
          subst ht
          exact Or.inr ⟨_, hev, fun _ => ⟨_, hs⟩⟩
  | interval every period =>
    cases every with
    | none =>
      have hev : evalTask now_utc t = .ok (false, t) := by simp [evalTask, hs]
      obtain ⟨hdue, ht⟩ := ok_inj (hev.symm.trans h)
      subst ht
      exact Or.inr ⟨false, hev, by simp⟩
    | some e =>
      cases period with
      | none =>
        have hev : evalTask now_utc t = .ok (false, t) := by simp [evalTask, hs]
        obtain ⟨hdue, ht⟩ := ok_inj (hev.symm.trans h)
        subst ht
        exact Or.inr ⟨false, hev, by simp⟩
      | some p =>
        by_cases he0 : e = 0
        · have hev : evalTask now_utc t = .ok (false, t) := by
            simp [evalTask, hs, he0]
          obtain ⟨hdue, ht⟩ := ok_inj (hev.symm.trans h)
          subst ht
          exact Or.inr ⟨false, hev, by simp⟩
        · have hegt : 0 < e := lt_of_le_of_ne (hpos e (some p) hs) (Ne.symm he0)
          have hmul : 0 < e * p.toSeconds := mul_pos hegt (Period.toSeconds_pos p)
          have hnd : ¬ now_utc + e * p.toSeconds ≤ now_utc := by linarith
          cases hl : t.last_run_at with
          | none =>
            have hev : evalTask now_utc t =
                .ok (true, { t with last_run_at := some now_utc }) := by
              simp [evalTask, hs, he0, hl]
            obtain ⟨hdue, ht⟩ := ok_inj (hev.symm.trans h)
            subst ht
            refine Or.inr ⟨false, ?_, by simp⟩
            simp [evalTask, hs, he0, hnd]
          | some l =>
            by_cases hle : l + e * p.toSeconds ≤ now_utc
            · have hev : evalTask now_utc t =
                  .ok (true, { t with last_run_at := some now_utc }) := by
                simp [evalTask, hs, he0, hl, hle]
              obtain ⟨hdue, ht⟩ := ok_inj (hev.symm.trans h)
              subst ht
              refine Or.inr ⟨false, ?_, by simp⟩
              simp [evalTask, hs, he0, hnd]
            · have hev : evalTask now_utc t = .ok (false, t) := by
                simp [evalTask, hs, he0, hl, hle]
              obtain ⟨hdue, ht⟩ := ok_inj (hev.symm.trans h)
              subst ht
              exact Or.inr ⟨false, hev, by simp⟩
  | datetime value =>
    cases value with
    | none =>
      have hev : evalTask now_utc t = .ok (false, t) := by simp [evalTask, hs]
      obtain ⟨hdue, ht⟩ := ok_inj (hev.symm.trans h)
      subst ht
      exact Or.inr ⟨false, hev, by simp⟩
    | some v =>
      cases v with
      | invalid =>
        have hev : evalTask now_utc t = .error () := by simp [evalTask, hs]
        exact Except.noConfusion (hev.symm.trans h)
      | valid naive =>
        cases htz : t.timezone with
        | invalid =>
          have hev : evalTask now_utc t = .error () := by simp [evalTask, hs, htz]
          exact Except.noConfusion (hev.symm.trans h)
        | valid off =>
          by_cases hd : naive - off ≤ now_utc
          · have hev : evalTask now_utc t =
                .ok (true, { t with is_active := false }) := by
              simp [evalTask, hs, htz, hd]
            obtain ⟨hdue, ht⟩ := ok_inj (hev.symm.trans h)
            subst ht
            exact Or.inl rfl
          · have hev : evalTask now_utc t = .ok (false, t) := by
              simp [evalTask, hs, htz, hd]
            obtain ⟨hdue, ht⟩ := ok_inj (hev.symm.trans h)
            subst ht
            exact Or.inr ⟨false, hev, by simp⟩
  | other =>
    have hev : evalTask now_utc t = .ok (false, t) := by simp [evalTask, hs]
    obtain ⟨hdue, ht⟩ := ok_inj (hev.symm.trans h)
    subst ht
    exact Or.inr ⟨false, hev, by simp⟩

/-- A successful loop run that accumulated no payload changed no row. -/
theorem phase1Loop_nil_payloads (now_utc : Int) :
    ∀ l lc : List Task, phase1Loop now_utc l = .ok lc [] → lc = l := by
  intro l
  induction l with
  | nil =>
    intro lc h
    exact (p1ok_inj h).1.symm
  | cons t ts ih =>
    intro lc h
    by_cases ha : t.is_active
    · cases hev : evalTask now_utc t with
      | error e =>
        have heq : phase1Loop now_utc (t :: ts) = .err [] := by
          simp [phase1Loop, ha, hev]
        rw [heq] at h
        exact Phase1Out.noConfusion h
      | ok r =>
        obtain ⟨due, t'⟩ := r
        cases hr : phase1Loop now_utc ts with
        | err ps =>
          have heq : phase1Loop now_utc (t :: ts) =
              .err (if due then { id := t.id, workflow := t.workflow } :: ps else ps) := by
            simp [phase1Loop, ha, hev, hr]
          rw [heq] at h
          exact Phase1Out.noConfusion h
        | ok ts' ps =>
          cases due with
          | true =>
            have heq : phase1Loop now_utc (t :: ts) =
                .ok (t' :: ts') ({ id := t.id, workflow := t.workflow } :: ps) := by
              simp [phase1Loop, ha, hev, hr]
            rw [heq] at h
            obtain ⟨h1, h2⟩ := p1ok_inj h
            exact absurd h2 (by simp)
          | false =>
            have heq : phase1Loop now_utc (t :: ts) = .ok (t' :: ts') ps := by
              simp [phase1Loop, ha, hev, hr]
            rw [heq] at h
            obtain ⟨h1, h2⟩ := p1ok_inj h
            subst h2
            rw [← h1, evalTask_not_due_fix now_utc t t' hev, ih ts' hr]
    · cases hr : phase1Loop now_utc ts with
      | err ps =>
        have heq : phase1Loop now_utc (t :: ts) = .err ps := by
          simp [phase1Loop, ha, hr]
        rw [heq] at h
        exact Phase1Out.noConfusion h
      | ok ts' ps =>
        have heq : phase1Loop now_utc (t :: ts) = .ok (t :: ts') ps := by
          simp [phase1Loop, ha, hr]
        rw [heq] at h
        obtain ⟨h1, h2⟩ := p1ok_inj h
        subst h2
        rw [← h1, ih ts' hr]

/-- Running the loop again, at the same instant, on the rows a successful run
produced: it succeeds, changes no row, and every payload it still produces
belongs to a cron row of the committed list — provided every interval length
in the input is nonnegative. -/
theorem phase1Loop_twice (now_utc : Int) :
    ∀ l lc : List Task, ∀ ps : List Payload,
      (∀ t ∈ l, ∀ e p, t.schedule_details = .interval (some e) p → 0 ≤ e) →
      phase1Loop now_utc l = .ok lc ps →
      ∃ ps2, phase1Loop now_utc lc = .ok lc ps2 ∧
        ∀ q ∈ ps2, ∃ t ∈ lc, t.id = q.id ∧ ∃ v, t.schedule_details = .cron v := by
  intro l
  induction l with
  | nil =>
    intro lc ps hpos h
    obtain ⟨h1, h2⟩ := p1ok_inj h
    subst h1
    exact ⟨[], rfl, by simp⟩
  | cons t ts ih =>
    intro lc ps hpos h
    have hposts : ∀ u ∈ ts, ∀ e p, u.schedule_details = .interval (some e) p → 0 ≤ e :=
      fun u hu => hpos u (List.mem_cons_of_mem _ hu)
    have hpost : ∀ e p, t.schedule_details = .interval (some e) p → 0 ≤ e :=
      hpos t (List.mem_cons_self _ _)
    by_cases ha : t.is_active
    · cases hev : evalTask now_utc t with
      | error e =>
        have heq : phase1Loop now_utc (t :: ts) = .err [] := by
          simp [phase1Loop, ha, hev]
        rw [heq] at h
        exact Phase1Out.noConfusion h
      | ok r =>
        obtain ⟨due, t'⟩ := r
        cases hr : phase1Loop now_utc ts with
        | err ps' =>
          have heq : phase1Loop now_utc (t :: ts) =
              .err (if due then { id := t.id, workflow := t.workflow } :: ps' else ps') := by
            simp [phase1Loop, ha, hev, hr]
          rw [heq] at h
          exact Phase1Out.noConfusion h
        | ok ts' ps' =>
          have heq : phase1Loop now_utc (t :: ts) =
              .ok (t' :: ts')
                (if due then { id := t.id, workflow := t.workflow } :: ps' else ps') := by
            simp [phase1Loop, ha, hev, hr]
          rw [heq] at h
          obtain ⟨h1, h2⟩ := p1ok_inj h
          subst h1
          obtain ⟨ps2, hh, hmem⟩ := ih ts' ps' hposts hr
          rcases evalTask_twice now_utc t due t' hpost hev with hinact | ⟨due2, he2, hcron⟩
          · refine ⟨ps2, by simp [phase1Loop, hinact, hh], ?_⟩
            intro q hq
            obtain ⟨u, hu, hx⟩ := hmem q hq
            exact ⟨u, List.mem_cons_of_mem _ hu, hx⟩
          · by_cases ha2 : t'.is_active
            · refine ⟨if due2 then { id := t'.id, workflow := t'.workflow } :: ps2 else ps2,
                by simp [phase1Loop, ha2, he2, hh], ?_⟩
              intro q hq
              cases hdue2 : due2 with
              | true =>
                rw [hdue2] at hq
                simp only [if_true, List.mem_cons] at hq
                rcases hq with hq | hq
                · exact ⟨t', List.mem_cons_self _ _, by simp [hq], hcron hdue2⟩
                · obtain ⟨u, hu, hx⟩ := hmem q hq
                  exact ⟨u, List.mem_cons_of_mem _ hu, hx⟩
              | false =>
                rw [hdue2] at hq
                simp only [Bool.false_eq_true, if_false] at hq
                obtain ⟨u, hu, hx⟩ := hmem q hq
                exact ⟨u, List.mem_cons_of_mem _ hu, hx⟩
            · refine ⟨ps2, by simp [phase1Loop, ha2, hh], ?_⟩
              intro q hq
              obtain ⟨u, hu, hx⟩ := hmem q hq
              exact ⟨u, List.mem_cons_of_mem _ hu, hx⟩
    · cases hr : phase1Loop now_utc ts with
      | err ps' =>
        have heq : phase1Loop now_utc (t :: ts) = .err ps' := by
          simp [phase1Loop, ha, hr]
        rw [heq] at h
        exact Phase1Out.noConfusion h
      | ok ts' ps' =>
        have heq : phase1Loop now_utc (t :: ts) = .ok (t :: ts') ps' := by
          simp [phase1Loop, ha, hr]
        rw [heq] at h
        obtain ⟨h1, h2⟩ := p1ok_inj h
        subst h1
        obtain ⟨ps2, hh, hmem⟩ := ih ts' ps' hposts hr
        refine ⟨ps2, by simp [phase1Loop, ha, hh], ?_⟩
        intro q hq
        obtain ⟨u, hu, hx⟩ := hmem q hq
        exact ⟨u, List.mem_cons_of_mem _ hu, hx⟩

/-! ## Claims -/

/-- C2: for an active interval task with a positive `every` and a present
period, a null `last_run_at` makes it due immediately, otherwise it is due
iff `last_run_at + every * period ≤ now`, and a due firing stamps
`last_run_at` with exactly `now`. -/
theorem interval_due_iff_and_stamps_now (now_utc : Int) (t : Task)
    (e : Int) (p : Period)
    (hs : t.schedule_details = .interval (some e) (some p)) (he : 0 < e) :
    (t.last_run_at = none →
      evalTask now_utc t = .ok (true, { t with last_run_at := some now_utc })) ∧
    ∀ l, t.last_run_at = some l →
      evalTask now_utc t =
        if l + e * p.toSeconds ≤ now_utc then
          .ok (true, { t with last_run_at := some now_utc })
        else
          .ok (false, t) := by
  have he' : ¬ e = 0 := by omega
  constructor
  · intro hl
    simp [evalTask, hs, hl, he']
  · intro l hl
    by_cases hle : l + e * p.toSeconds ≤ now_utc <;>
      simp [evalTask, hs, hl, he', hle]

/-- Witness for C2: the never-run five-minute task fires at instant 100 and is
stamped with 100. -/
theorem interval_due_iff_and_stamps_now_witness :
    evalTask 100 tInterval = .ok (true, { tInterval with last_run_at := some 100 }) :=
  (interval_due_iff_and_stamps_now 100 tInterval 5 .minutes rfl (by decide)).1 rfl

/-- C4: an active cron task with a valid cron string and a known zone is due
iff the previous fire time at local `base_time = now + offset` is at most 60
seconds old, and the evaluation mutates no field of the row. -/
theorem cron_due_iff_within_window (now_utc : Int) (t : Task)
    (e : CronExpr) (off : Int)
    (hs : t.schedule_details = .cron (some (.valid e)))
    (htz : t.timezone = .valid off) :
    evalTask now_utc t =
      .ok (decide ((now_utc + off) - e.prevFire (now_utc + off) ≤ 60), t) := by
  simp [evalTask, hs, htz]

/-- Witness for C4: the every-minute cron task is due 30 seconds past the
minute, and its row comes back untouched. -/
theorem cron_due_iff_within_window_witness :
    evalTask 30 tCron = .ok (true, tCron) := by
  have h := cron_due_iff_within_window 30 tCron cronMinute 0 rfl rfl
  rw [h]
  rfl

/-- C10: a task whose schedule type is missing or unrecognized is treated as
not due: no payload, no mutation, it stays active, and the rest of the list
is evaluated exactly as it would be without it. -/
theorem unknown_schedule_type_ignored (now_utc : Int) (t : Task) (ts : List Task)
    (hs : t.schedule_details = .other) :
    evalTask now_utc t = .ok (false, t) ∧
    phase1Loop now_utc (t :: ts) =
      match phase1Loop now_utc ts with
      | .ok ts' ps => .ok (t :: ts') ps
      | .err ps => .err ps := by
  have he : evalTask now_utc t = .ok (false, t) := by simp [evalTask, hs]
  exact ⟨he, phase1Loop_skip now_utc t ts he⟩

/-- Witness for C10: the unknown-type task passes through while the interval
task behind it still fires. -/
theorem unknown_schedule_type_ignored_witness :
    phase1Loop 100 [tOther, tInterval] =
      .ok [tOther, { tInterval with last_run_at := some 100 }]
        [{ id := 1, workflow := [stepScrape, stepEmail] }] :=
  (unknown_schedule_type_ignored 100 tOther [tInterval] rfl).2.trans rfl

/-- C3: an active datetime task with a parseable value and a known zone is due
iff the stored naive instant, localized to the task's own zone, is at or
before `now`; a due firing deactivates the row in the same evaluation, and
the deactivated row passes through every later cycle untouched and without a
payload, whatever the clock then says. -/
theorem datetime_fires_at_most_once (now_utc : Int) (t : Task)
    (naive off : Int)
    (hs : t.schedule_details = .datetime (some (.valid naive)))
    (htz : t.timezone = .valid off) :
    (¬ naive - off ≤ now_utc → evalTask now_utc t = .ok (false, t)) ∧
    (naive - off ≤ now_utc →
      evalTask now_utc t = .ok (true, { t with is_active := false }) ∧
      (∀ now2 ts, phase1Loop now2 ({ t with is_active := false } :: ts) =
        match phase1Loop now2 ts with
        | .ok ts' ps => .ok ({ t with is_active := false } :: ts') ps
        | .err ps => .err ps) ∧
      ∀ now2 l1 l2,
        (phase1Loop now2 (l1 ++ { t with is_active := false } :: l2)).payloads =
          (phase1Loop now2 (l1 ++ l2)).payloads) := by
  constructor
  · intro hd
    simp [evalTask, hs, htz, hd]
  · intro hd
    refine ⟨by simp [evalTask, hs, htz, hd], ?_, ?_⟩
    · intro now2 ts
      cases hr : phase1Loop now2 ts <;> simp [phase1Loop, hr]
    · intro now2 l1 l2
      exact phase1Loop_inactive_insert now2 _ rfl l1 l2

/-- Witness for C3: the one-shot task fires at instant 100, and the
deactivated row survives a later cycle at instant 1000 untouched, with no
payload. -/
theorem datetime_fires_at_most_once_witness :
    evalTask 100 tDate = .ok (true, { tDate with is_active := false }) ∧
    phase1Loop 1000 [{ tDate with is_active := false }] =
      .ok [{ tDate with is_active := false }] [] ∧
    (phase1Loop 1000 [tInterval, { tDate with is_active := false }]).payloads =
      (phase1Loop 1000 [tInterval]).payloads := by
  have h := (datetime_fires_at_most_once 100 tDate 50 0 rfl rfl).2 (by decide)
  exact ⟨h.1, (h.2.1 1000 []).trans rfl, h.2.2 1000 [tInterval] []⟩

/-- C1 (code bug): with an interval task already found due and a later task
raising during Phase 1, the transaction is rolled back — both rows keep their
prior state — and yet Phase 2 still publishes the chain of the task found due
before the error, because the except branch of the source never clears
`dispatch_payloads`. -/
theorem phase1_error_still_dispatches :
    dispatch_periodic_tasks (fun _ => false) 100 [tInterval, tCronBad] =
      ([tInterval, tCronBad], [buildChain tInterval.workflow]) := rfl

/-- C5 counterexample: a present but uninterpretable cron value aborts the
whole cycle: with the malformed task first, the healthy interval task behind
it is not evaluated (no mutation, no dispatch), although on its own at the
same instant it fires, is stamped and is published. -/
theorem malformed_value_aborts_cycle :
    dispatch_periodic_tasks (fun _ => false) 100 [tCronBad, tInterval] =
      ([tCronBad, tInterval], []) ∧
    dispatch_periodic_tasks (fun _ => false) 100 [tInterval] =
      ([{ tInterval with last_run_at := some 100 }],
        [buildChain tInterval.workflow]) :=
  ⟨rfl, rfl⟩

/-- C5 (amended): a task whose schedule document merely lacks a required
entry (or holds a falsy one) is skipped without aborting the cycle: it stays
active and unmutated, produces nothing, and the rest of the list is evaluated
exactly as it would be without it. -/
theorem missing_fields_skip_and_continue (now_utc : Int) (t : Task)
    (ts : List Task) (hm : missingRequired t.schedule_details = true) :
    evalTask now_utc t = .ok (false, t) ∧
    phase1Loop now_utc (t :: ts) =
      match phase1Loop now_utc ts with
      | .ok ts' ps => .ok (t :: ts') ps
      | .err ps => .err ps := by
  have he : evalTask now_utc t = .ok (false, t) := by
    cases hs : t.schedule_details with
    | cron value =>
      cases value with
      | none => simp [evalTask, hs]
      | some v => simp [missingRequired, hs] at hm
    | interval every period =>
      cases every with
      | none => simp [evalTask, hs]
      | some e =>
        cases period with
        | none => simp [evalTask, hs]
        | some p =>
          have he0 : e = 0 := by simpa [missingRequired, hs] using hm
          simp [evalTask, hs, he0]
    | datetime value =>
      cases value with
      | none => simp [evalTask, hs]
      | some v => simp [missingRequired, hs] at hm
    | other => simp [missingRequired, hs] at hm
  exact ⟨he, phase1Loop_skip now_utc t ts he⟩

/-- Witness for C5 amended: the period-less task passes through while the
interval task behind it still fires. -/
theorem missing_fields_skip_and_continue_witness :
    evalTask 100 tNoPeriod = .ok (false, tNoPeriod) ∧
    phase1Loop 100 [tNoPeriod, tInterval] =
      .ok [tNoPeriod, { tInterval with last_run_at := some 100 }]
        [{ id := 1, workflow := [stepScrape, stepEmail] }] := by
  have h := missing_fields_skip_and_continue 100 tNoPeriod [tInterval] rfl
  exact ⟨h.1, h.2.trans rfl⟩

/-- C6: a broker failure on one due task's publish neither blocks another due
payload's chain from being published in the same cycle nor touches the
already committed Phase 1 state. -/
theorem publish_failure_isolated (pubFails : Nat → Bool) (now_utc : Int)
    (db : List Task) (p : Payload)
    (hp : p ∈ (phase1 now_utc db).2) (hok : pubFails p.id = false)
    (hne : ¬ buildChain p.workflow = []) :
    buildChain p.workflow ∈ (dispatch_periodic_tasks pubFails now_utc db).2 ∧
    (dispatch_periodic_tasks pubFails now_utc db).1 = (phase1 now_utc db).1 := by
  refine ⟨?_, rfl⟩
  show buildChain p.workflow ∈ phase2 pubFails (phase1 now_utc db).2
  refine List.mem_filterMap.mpr ⟨p, hp, ?_⟩
  simp [hne, hok]

/-- Witness for C6: with the broker failing on the one-shot task (id 4), the
interval task's chain is still published and the committed Phase 1 state is
untouched. -/
theorem publish_failure_isolated_witness :
    buildChain tInterval.workflow ∈
      (dispatch_periodic_tasks (fun n => decide (n = 4)) 100 [tInterval, tDate]).2 ∧
    (dispatch_periodic_tasks (fun n => decide (n = 4)) 100 [tInterval, tDate]).1 =
      (phase1 100 [tInterval, tDate]).1 :=
  publish_failure_isolated (fun n => decide (n = 4)) 100 [tInterval, tDate]
    { id := 1, workflow := tInterval.workflow } (by decide) rfl (by decide)

/-- C7: every dispatch payload carries the id and the stored workflow of some
row of the database, and with a healthy broker the published chains are
exactly, in payload order, one signature per workflow step — tool identifier
plus parameter mapping, in stored order — with zero-step workflows publishing
nothing. -/
theorem chain_one_item_per_step_in_order (now_utc : Int) (db : List Task) :
    (∀ p ∈ (phase1 now_utc db).2, ∃ t ∈ db, p.id = t.id ∧ p.workflow = t.workflow) ∧
    (dispatch_periodic_tasks (fun _ => false) now_utc db).2 =
      ((phase1 now_utc db).2.map fun p => p.workflow.map stepSig).filter
        (fun c => !c.isEmpty) := by
  constructor
  · intro p hp
    exact phase1Loop_payload_src now_utc db p (by rwa [phase1_snd] at hp)
  · show phase2 (fun _ => false) (phase1 now_utc db).2 = _
    rw [phase2_noFail]
    rfl

/-- Witness for C7: the two-step workflow of the due interval task dispatches
as a two-item chain in stored order. -/
theorem chain_one_item_per_step_in_order_witness :
    (dispatch_periodic_tasks (fun _ => false) 100 [tInterval]).2 =
      [[(some "scrape_web", [("url", "https://example.com"), ("selector", "h2")]),
        (some "send_email", [("recipient", "a@example.com"), ("subject", "news")])]] :=
  (chain_one_item_per_step_in_order 100 [tInterval]).2.trans rfl

/-- C9 counterexample: two publishes of different tasks (ids 1 and 6) at
different instants (100 and 999) put identical messages on the queue — no
execution identifier built from task id and timestamp tags a publish. -/
theorem publish_untagged_counterexample :
    (dispatch_periodic_tasks (fun _ => false) 100 [tInterval]).2 =
      (dispatch_periodic_tasks (fun _ => false) 999 [tInterval2]).2 ∧
    tInterval.id ≠ tInterval2.id :=
  ⟨rfl, by decide⟩

/-- C9 (amended): a published message is the built chain alone, a function of
the due payloads' workflows only: payload lists with equal workflow sequences
publish equal message sequences whatever their task ids and whatever the
instant, so repeated publishes are not distinguishable by any scheduler-added
tag. -/
theorem publish_depends_only_on_workflow (ps qs : List Payload)
    (h : ps.map Payload.workflow = qs.map Payload.workflow) :
    phase2 (fun _ => false) ps = phase2 (fun _ => false) qs := by
  have key : ∀ rs : List Payload,
      (rs.map fun p => buildChain p.workflow) =
        (rs.map Payload.workflow).map buildChain := by
    intro rs
    rw [List.map_map]
    rfl
  rw [phase2_noFail, phase2_noFail, key, key, h]

/-- Witness for C9 amended: payload lists with ids 1 and 6 and the same
single-step workflow publish the same messages. -/
theorem publish_depends_only_on_workflow_witness :
    phase2 (fun _ => false) [{ id := 1, workflow := [stepEmail] }] =
      phase2 (fun _ => false) [{ id := 6, workflow := [stepEmail] }] :=
  publish_depends_only_on_workflow _ _ rfl

/-- C8: after a Phase 1 run that committed without error, re-running Phase 1
at the very same instant leaves every row as it is and can find only cron
rows due: every interval row (nonnegative interval length assumed, the claim
speaks of positive ones) and every datetime row that fired is excluded from
the second due set by the committed mutation. -/
theorem second_run_due_only_cron (now_utc : Int) (db dbc : List Task)
    (ps1 : List Payload)
    (hpos : ∀ t ∈ db, ∀ e p, t.schedule_details = .interval (some e) p → 0 ≤ e)
    (h1 : phase1Loop now_utc db = .ok dbc ps1) :
    (phase1 now_utc db).1 = dbc ∧
    ∃ ps2, phase1Loop now_utc dbc = .ok dbc ps2 ∧
      ∀ q ∈ ps2, ∃ t ∈ dbc, t.id = q.id ∧ ∃ v, t.schedule_details = .cron v := by
  constructor
  · unfold phase1
    rw [h1]
    cases hps : ps1 with
    | nil =>
      have hdb : dbc = db := phase1Loop_nil_payloads now_utc db dbc (by rwa [hps] at h1)
      simp [hdb]
    | cons q qs => simp
  · exact phase1Loop_twice now_utc db dbc ps1 hpos h1

/-- Witness for C8: the first run at instant 100 commits the interval stamp
and the datetime deactivation; the second run at the same instant finds
nothing due. -/
theorem second_run_due_only_cron_witness :
    (phase1 100 [tInterval, tDate]).1 =
      [{ tInterval with last_run_at := some 100 },
        { tDate with is_active := false }] ∧
    ∃ ps2, phase1Loop 100
        [{ tInterval with last_run_at := some 100 },
          { tDate with is_active := false }] =
      .ok [{ tInterval with last_run_at := some 100 },
        { tDate with is_active := false }] ps2 ∧
      ∀ q ∈ ps2,
        ∃ t ∈ [{ tInterval with last_run_at := some 100 },
          { tDate with is_active := false }],
          t.id = q.id ∧ ∃ v, t.schedule_details = .cron v := by
  refine second_run_due_only_cron 100 [tInterval, tDate] _
    [{ id := 1, workflow := [stepScrape, stepEmail] }, { id := 4, workflow := [stepEmail] }]
    ?_ rfl
  intro t ht e p hsch
  simp only [List.mem_cons, List.mem_singleton] at ht
  rcases ht with rfl | rfl | hf
  · rw [show tInterval.schedule_details = .interval (some 5) (some .minutes) from rfl] at hsch
    injection hsch with h1 h2
    injection h1 with h1
    omega
  · rw [show tDate.schedule_details = .datetime (some (.valid 50)) from rfl] at hsch
    exact ScheduleDetails.noConfusion hsch
  · exact absurd hf (List.not_mem_nil t)

end AITaskScheduler
